import Mathlib

/-!
Verification development for the `vertex-nano-banana-unlimited` repository.

The definitions below are a shallow embedding, transcribed from the Go
sources, of the batch orchestrator (`internal/app/run.go`), the HTTP
boundary's temperature handling, and the sing-box proxy subsystem
(subscription fetch/merge/normalisation, the endpoint penalty ledger and
the subprocess lifecycle).  Timestamps are modelled as `Int` seconds,
file contents as `String`s, and I/O outcomes as explicit parameters.
-/

/-! ## Generic association-list helpers (model of Go `map` read/update) -/

/-- Update-or-append an entry of a string-keyed association list, mirroring
a Go map assignment `m[k] = v` (order of first insertion is preserved). -/
def setEntry {α : Type} : List (String × α) → String → α → List (String × α)
  | [], k, v => [(k, v)]
  | (k', v') :: t, k, v =>
    if k' = k then (k, v) :: t else (k', v') :: setEntry t k v

/-- Lookup of a string-keyed association list, mirroring Go `v, ok := m[k]`. -/
def lookupEntry {α : Type} : List (String × α) → String → Option α
  | [], _ => none
  | (k', v) :: t, k => if k' = k then some v else lookupEntry t k

/-- Substring test on character lists (`strings.Contains` on the data). -/
def containsSub : List Char → List Char → Bool
  | [], nd => nd.isPrefixOf ([] : List Char)
  | c :: t, nd => nd.isPrefixOf (c :: t) || containsSub t nd

/-- `strings.Contains s sub`. -/
def strContains (s sub : String) : Bool :=
  containsSub s.data sub.data

/-- `strings.TrimSpace` on the underlying character list. -/
def trimList (l : List Char) : List Char :=
  ((l.dropWhile Char.isWhitespace).reverse.dropWhile Char.isWhitespace).reverse

/-- `strings.TrimSpace s`. -/
def strTrim (s : String) : String :=
  String.mk (trimList s.data)

/-- Split a character list at every occurrence of a separator character
(`strings.Split` with a one-character separator). -/
def splitOnChar (sep : Char) : List Char → List (List Char)
  | [] => [[]]
  | c :: t =>
    let rest := splitOnChar sep t
    if c = sep then [] :: rest
    else
      match rest with
      | [] => [[c]]
      | h :: r => (c :: h) :: r

/-- `strings.Split s "\n"`. -/
def splitLines (s : String) : List String :=
  (splitOnChar (Char.ofNat 10) s.data).map String.mk

/-- Split at the first comma (`strings.SplitN line "," 2`); `none` when the
line holds no comma, in which case the source skips the line. -/
def breakAtComma : List Char → Option (List Char × List Char)
  | [] => none
  | c :: t =>
    if c = ',' then some ([], t)
    else (breakAtComma t).map (fun p => (c :: p.1, p.2))

/-- Decimal digits to a number; `none` on the empty list or a non-digit. -/
def digitsToNat : List Char → Option Nat
  | [] => none
  | l => go l 0
where
  go : List Char → Nat → Option Nat
    | [], acc => some acc
    | c :: t, acc =>
      if c.isDigit then go t (acc * 10 + (c.toNat - 48)) else none

/-- `strconv.ParseInt s 10 64` (the 64-bit overflow bound is not modelled;
ledger timestamps stay far below it). -/
def parseIntList : List Char → Option Int
  | '+' :: t => (digitsToNat t).map Int.ofNat
  | '-' :: t => (digitsToNat t).map (fun n => -(n : Int))
  | l => (digitsToNat l).map Int.ofNat

/-- `strconv.ParseInt` on a string. -/
def strToInt (s : String) : Option Int :=
  parseIntList s.data

/-- `strings.ToLower` (ASCII; the outbound `type` values are ASCII). -/
def strToLower (s : String) : String :=
  String.mk (s.data.map Char.toLower)

/-! ## Data model -/

/-- `steps.DownloadOutcome`: the three terminal outcomes of the
download-poll step. -/
inductive DownloadOutcome
  | downloaded
  | exhausted
  | none
deriving DecidableEq, Repr

/-- `proxy.Endpoint`: a usable local proxy endpoint. -/
structure Endpoint where
  tag : String
  url : String
deriving DecidableEq, Repr

/-- A subscription outbound definition; the core only ever inspects the
`tag` and `type` fields, so the provider-specific attribute bag is not
modelled. -/
structure Outbound where
  tag : String
  type : String
deriving DecidableEq, Repr

/-! ## Endpoint penalty ledger (`internal/proxy`, penalty helpers)

The ledger file `tmp/singbox_penalty.txt` maps an endpoint tag to a freeze
expiry; `savePenalty` is a read-modify-write of that map and
`filterPenalized` drops endpoints whose freeze has not yet expired.
File states are modelled by `ReadResult`; times are `Int` unix seconds. -/

/-- Outcome of `os.ReadFile` on the ledger: content, `os.IsNotExist`, or
any other I/O error. -/
inductive ReadResult
  | ok (content : String)
  | notFound
  | ioError
deriving DecidableEq, Repr

/-- One iteration of the parse loop of `readPenaltiesFile`: trim the line,
skip empties, split at the first comma, parse the timestamp, and store
`tag ↦ unix` (later lines overwrite earlier ones, as in a Go map). -/
def parsePenaltyLine (acc : List (String × Int)) (line : String) : List (String × Int) :=
  let line := strTrim line
  if line = "" then acc
  else
    match breakAtComma line.data with
    | Option.none => acc
    | some (a, b) =>
      match strToInt (strTrim (String.mk b)) with
      | some ts => setEntry acc (strTrim (String.mk a)) ts
      | Option.none => acc

/-- `readPenaltiesFile`: a missing file yields the empty map without error;
any other read failure is an error. -/
def readPenaltiesFile : ReadResult → Except Unit (List (String × Int))
  | .ok c => .ok ((splitLines c).foldl parsePenaltyLine [])
  | .notFound => .ok []
  | .ioError => .error ()

/-- The map `filterPenalized` actually consults: it ignores the read error
(`penalties, _ := readPenaltiesFile(...)`), so a failed read behaves as the
empty (nil) map. -/
def effectivePenalties (rr : ReadResult) : List (String × Int) :=
  match readPenaltiesFile rr with
  | .ok penalties => penalties
  | .error _ => []

/-- Keep condition of the `filterPenalized` loop: an endpoint is dropped
exactly when its tag has a recorded expiry with `now.Before(exp)`. -/
def notPenalized (penalties : List (String × Int)) (now : Int) (ep : Endpoint) : Bool :=
  match lookupEntry penalties ep.tag with
  | some exp => if now < exp then false else true
  | Option.none => true

/-- `filterPenalized`. -/
def filterPenalized (rr : ReadResult) (now : Int) (endpoints : List Endpoint) : List Endpoint :=
  endpoints.filter (notPenalized (effectivePenalties rr) now)

/-- `15 * time.Minute`, in seconds. -/
def freezeDuration : Int := 15 * 60

/-- `proxy.FreezeEndpoint` (via `savePenalty`): trims the tag, is a no-op
on an empty tag, otherwise upserts `tag ↦ now + 15min` into the ledger.
`ioOk` models whether the ledger read/write inside `savePenalty`
succeeds; the `Bool` of the result records whether the ledger was
written. -/
def FreezeEndpoint (ioOk : Bool) (now : Int) (ledger : List (String × Int)) (tag : String) :
    Except Unit (List (String × Int) × Bool) :=
  let t := strTrim tag
  if t = "" then .ok (ledger, false)
  else if ioOk then .ok (setEntry ledger t (now + freezeDuration), true)
  else .error ()

/-- State of one scenario's freeze bookkeeping: the `penalized` guard of
the `freeze` closure in `runScenario`, the ledger, and how many ledger
writes have happened. -/
structure ScenarioFreezeSt where
  penalized : Bool
  ledger : List (String × Int)
  writes : Nat
deriving DecidableEq, Repr

/-- The `freeze` closure of `runScenario`: returns immediately when the
scenario is already penalized or its assigned tag is empty; on a
`FreezeEndpoint` error it leaves `penalized` unset (so a later call may
retry); on success it marks the scenario penalized. -/
def scenarioFreeze (ioOk : Bool) (now : Int) (tag : String) (st : ScenarioFreezeSt) :
    ScenarioFreezeSt :=
  if st.penalized then st
  else if tag = "" then st
  else
    match FreezeEndpoint ioOk now st.ledger tag with
    | .error _ => st
    | .ok (l, wrote) =>
      { penalized := true, ledger := l, writes := st.writes + (if wrote then 1 else 0) }

/-- `k` successive invocations of the scenario's freeze path. -/
def repFreeze (ioOk : Bool) (now : Int) (tag : String) : Nat → ScenarioFreezeSt → ScenarioFreezeSt
  | 0, st => st
  | k + 1, st => repFreeze ioOk now tag k (scenarioFreeze ioOk now tag st)

/-! ## Subscription fetch, filtering and tag normalisation (`internal/proxy`) -/

/-- `isRealOutboundType`: a routable egress type is any non-empty type
outside the non-routable meta set. -/
def isRealOutboundType (t : String) : Bool :=
  let t := strToLower (strTrim t)
  if t = "selector" ∨ t = "urltest" ∨ t = "dns" ∨ t = "direct" ∨ t = "block" ∨
      t = "tun" ∨ t = "mixed" then false
  else t != ""

/-- `hasRealOutbounds`. -/
def hasRealOutbounds (items : List Outbound) : Bool :=
  items.any (fun ob => isRealOutboundType ob.type)

/-- The promotional-keyword blacklist of `shouldExcludeTag`. -/
def tagBlacklist : List String :=
  ["自动选择", "故障转移", "套餐到期", "剩余流量", "文档下载", "订阅更多节点"]

/-- `shouldExcludeTag`: case-sensitive substring match against the
blacklist. -/
def shouldExcludeTag (tag : String) : Bool :=
  tagBlacklist.any (fun kw => strContains tag kw)

/-- The original display name used by `normalizeOutbounds` for the item at
position `i`: the trimmed tag, or `node-{i+1}` when that is empty. -/
def effOrigTag (ob : Outbound) (i : Nat) : String :=
  let t := strTrim ob.tag
  if t = "" then "node-" ++ toString (i + 1) else t

/-- `normalizeOutbounds`: drop blacklisted display names, namespace each
surviving tag with the per-subscription `pfx`, and resolve collisions on
the exact prefixed tag by appending `-{n}` where `n` is the running
duplicate count kept in `seen`.  Returns the normalised items together
with the updated `seen` map; `i` is the position inside this
subscription's item list (used for default display names). -/
def normalizeOutbounds (items : List Outbound) (pfx : String) (seen : List (String × Nat))
    (i : Nat) : List Outbound × List (String × Nat) :=
  match items with
  | [] => ([], seen)
  | ob :: rest =>
    let origTag := effOrigTag ob i
    if shouldExcludeTag origTag then normalizeOutbounds rest pfx seen (i + 1)
    else
      let tag := pfx ++ origTag
      match lookupEntry seen tag with
      | some n =>
        let out := normalizeOutbounds rest pfx (setEntry seen tag (n + 1)) (i + 1)
        ({ ob with tag := tag ++ "-" ++ toString (n + 1) } :: out.1, out.2)
      | Option.none =>
        let out := normalizeOutbounds rest pfx (setEntry seen tag 1) (i + 1)
        ({ ob with tag := tag } :: out.1, out.2)

/-- `fetchSubscription`, with everything up to the extraction of the
document's `outbounds` array (HTTP GET, base64 fallback, JSON decoding)
abstracted into the `doc` argument; the function then keeps exactly the
entries with a routable type. -/
def fetchSubscription (doc : Except String (List Outbound)) : Except String (List Outbound) :=
  match doc with
  | .error e => .error e
  | .ok items => .ok (items.filter (fun ob => isRealOutboundType ob.type))

/-- The fetch-and-merge loop of `loadOrFetchOutbounds`: URLs are fetched in
listed order, the loop aborts on the first fetch error, and the `seen`
collision map is threaded through all subscriptions.  `idx` is the
0-based subscription index (the prefix is `sub{idx+1}-`). -/
def mergeSubscriptions (docs : List (Except String (List Outbound))) (idx : Nat)
    (seen : List (String × Nat)) : Except String (List Outbound) :=
  match docs with
  | [] => .ok []
  | d :: rest =>
    match fetchSubscription d with
    | .error e => .error ("fetch: " ++ e)
    | .ok items =>
      let normed := normalizeOutbounds items ("sub" ++ toString (idx + 1) ++ "-") seen 0
      match mergeSubscriptions rest (idx + 1) normed.2 with
      | .error e => .error e
      | .ok more => .ok (normed.1 ++ more)

/-- The fetch path of `loadOrFetchOutbounds` (taken when no usable cache
exists): merge all subscriptions, fail when the merged list is empty,
persist the merged list (`writeOk` models `writeJSONFile` succeeding) and
return it.  The second component is what was successfully persisted to
the cache file (`none` when nothing was). -/
def loadFetchPath (docs : List (Except String (List Outbound))) (writeOk : Bool) :
    Except String (List Outbound) × Option (List Outbound) :=
  match mergeSubscriptions docs 0 [] with
  | .error e => (.error e, Option.none)
  | .ok merged =>
    if merged = [] then (.error "订阅未返回任何 outbounds", Option.none)
    else if writeOk then (.ok merged, some merged)
    else (.error "write cache", Option.none)

/-- `loadOrFetchOutbounds`: `cache` is the parsed content of the on-disk
cache file (`none` when the file is unreadable or not valid JSON).  A
cache containing at least one real outbound is returned as-is; otherwise
every subscription URL is fetched. -/
def loadOrFetchOutbounds (cache : Option (List Outbound))
    (docs : List (Except String (List Outbound))) (writeOk : Bool) :
    Except String (List Outbound) × Option (List Outbound) :=
  match cache with
  | some out => if hasRealOutbounds out then (.ok out, Option.none) else loadFetchPath docs writeOk
  | Option.none => loadFetchPath docs writeOk

/-! ## Batch orchestrator (`RunWithOptions`, internal/app/run.go) -/

/-- `ScenarioResult` (JSON fields of the Go struct; `aspect` embeds the
source's aspect-ratio field). -/
structure ScenarioResult where
  id : Nat
  outcome : DownloadOutcome
  path : String
  url : String
  proxyTag : String
  outputRes : String
  aspect : String
  error : String
deriving DecidableEq, Repr

/-- What one worker goroutine got back from `runScenario`: the result and
the scenario error (`none` when `runScenario` returned a nil error). -/
structure WorkerOut where
  res : ScenarioResult
  err : Option String
deriving DecidableEq, Repr

/-- What the goroutine sends on `resultCh`: on an error, `res.Error` is set
to the error text first. -/
def workerSend (w : WorkerOut) : ScenarioResult :=
  match w.err with
  | some e => { w.res with error := e }
  | Option.none => w.res

/-- What the goroutine sends on `errCh` (nothing when the scenario
succeeded): the error wrapped as `scenario {id}: {err}`. -/
def workerErrMsg (w : WorkerOut) : Option String :=
  w.err.map (fun e => "scenario " ++ toString w.res.id ++ ": " ++ e)

/-- Draining `resultCh`: every worker's (possibly error-annotated) result,
in channel-drain order. -/
def drainResults (outs : List WorkerOut) : List ScenarioResult :=
  outs.map workerSend

/-- Draining `errCh` into `firstErr`: the first error in channel-drain
order, `none` when no worker errored. -/
def drainFirstErr : List WorkerOut → Option String
  | [] => Option.none
  | w :: rest =>
    match workerErrMsg w with
    | some e => some e
    | Option.none => drainFirstErr rest

/-- The `anySuccess` scan of `RunWithOptions`. -/
def anySuccess (results : List ScenarioResult) : Bool :=
  results.any (fun r => r.outcome == DownloadOutcome.downloaded)

/-- The aggregation tail of `RunWithOptions` (lines after `wg.Wait()`):
given the drained worker outputs, the returned results list and batch
error. -/
def runAggregate (outs : List WorkerOut) : List ScenarioResult × Option String :=
  let results := drainResults outs
  if anySuccess results then (results, Option.none)
  else (results, drainFirstErr outs)

/-- `ScenarioCount` flooring at the head of `RunWithOptions`
(`if opts.ScenarioCount < 1 { opts.ScenarioCount = 1 }`). -/
def flooredScenarioCount (sc : Int) : Nat :=
  if sc < 1 then 1 else sc.toNat

/-- The identity and proxy binding a launched worker goroutine receives. -/
structure WorkerSpec where
  id : Nat
  proxyURL : String
  proxyTag : String
deriving DecidableEq, Repr

/-- The worker-launch loop of `RunWithOptions`: cap the run count at the
endpoint count when endpoints exist, then bind worker `i+1` positionally
to `assigned[i]` (no proxy at all when the endpoint list is empty). -/
def launchedWorkers (sc : Int) (assigned : List Endpoint) : List WorkerSpec :=
  let runCount0 := flooredScenarioCount sc
  let runCount :=
    if 0 < assigned.length ∧ assigned.length < runCount0 then assigned.length else runCount0
  (List.range runCount).map (fun i =>
    if 0 < assigned.length then
      { id := i + 1, proxyURL := (assigned.getD i ⟨"", ""⟩).url,
        proxyTag := (assigned.getD i ⟨"", ""⟩).tag }
    else { id := i + 1, proxyURL := "", proxyTag := "" })

/-! ## sing-box subprocess lifecycle (`pickProxyEndpoints` / `StartSingBox`) -/

/-- The two cancellation scopes in play when a batch starts sing-box: the
application-wide scope (`context.Background()`) and the per-run request
scope (the `ctx` argument of `RunWithOptions`). -/
inductive CancelScope
  | app
  | run
deriving DecidableEq, Repr

/-- Which scopes govern the sing-box subprocess: `execScope` is the context
handed to `exec.CommandContext` inside `StartSingBox`; `stopMonitorScope`
is the scope whose `Done()` the spawned monitor goroutine waits on before
calling `stop()` (which kills the subprocess). -/
structure SingBoxLifecycle where
  execScope : CancelScope
  stopMonitorScope : Option CancelScope
deriving DecidableEq, Repr

/-- The lifecycle wiring of `pickProxyEndpoints`: `StartSingBox` is called
with `processCtx := context.Background()` (the application scope), and a
goroutine `go func() { <-ctx.Done(); stop() }()` is spawned on the run
request's context. -/
def pickProxyEndpointsLifecycle : SingBoxLifecycle :=
  { execScope := CancelScope.app, stopMonitorScope := some CancelScope.run }

/-- Whether cancelling the given scope terminates the subprocess: either
the exec context is that scope (`exec.CommandContext` kills the process
when its context ends) or the stop-monitor goroutine is armed on it. -/
def terminatedOnCancel (l : SingBoxLifecycle) (cancelled : CancelScope) : Bool :=
  (l.execScope == cancelled) || (l.stopMonitorScope == some cancelled)

/-! ## Temperature handling (HTTP handlers and the scenario step) -/

/-- `DefaultRunOptions().Temperature = 1.0`. -/
def defaultTemperature : ℚ := 1

/-- `handleJSONRun`: `if req.Temperature > 0 { opts.Temperature = req.Temperature }`
on top of the default; there is no upper-range check in the JSON path. -/
def jsonEffectiveTemperature (submitted : ℚ) : ℚ :=
  if submitted > 0 then submitted else defaultTemperature

/-- `handleMultipartRun` parse step: a present `temperature` form value is
accepted only when `0 ≤ t ≤ 2`, otherwise the local variable stays `0`. -/
def multipartParsedTemperature (submitted : Option ℚ) : ℚ :=
  match submitted with
  | some t => if 0 ≤ t ∧ t ≤ 2 then t else 0
  | Option.none => 0

/-- `handleMultipartRun`: `if temperature > 0 { opts.Temperature = temperature }`
on top of the default. -/
def multipartEffectiveTemperature (submitted : Option ℚ) : ℚ :=
  let t := multipartParsedTemperature submitted
  if t > 0 then t else defaultTemperature

/-- The temperature step of `runScenario` (lines around
`if opts.Temperature > 0`): when the effective temperature is positive the
step runs and its outcome (`stepRun`, an optional step error) is the
scenario's; otherwise the step is skipped entirely with no error. -/
def scenarioTemperatureStep (temp : ℚ) (stepRun : Option String) : Option String :=
  if temp > 0 then stepRun else Option.none

/-! ## `runScenario` exit paths and the freeze policy -/

/-- Result of the `steps.DownloadImage` call: a non-nil error, or a clean
return with one of the three outcomes. -/
inductive DlStep
  | err
  | outcome (o : DownloadOutcome)
deriving DecidableEq, Repr

/-- The exit-path skeleton of one `runScenario` call: whether `ctx.Err()`
was already non-nil at entry (the return before the deferred freeze is
registered), the success of each required step attempt in order (context
and page creation, tracing, goto, the `step(...)` calls, the prompt-length
check, the post-submit context check), and the download step's result. -/
structure ScenarioFlow where
  entryCancelled : Bool
  stepsOk : List Bool
  download : DlStep
deriving DecidableEq, Repr

/-- Freeze bookkeeping of one `runScenario` call, transcribed from its
control flow: the entry `ctx.Err()` return happens before
`defer freeze("defer")` is registered; every `fail(...)` path calls
`freeze` and then the deferred `freeze` runs again; a clean return from
the download step calls `freeze` for the `downloaded` and `exhausted`
outcomes (not for `none`) and then the deferred `freeze` runs. -/
def runScenarioFreezes (flow : ScenarioFlow) (ioOk : Bool) (now : Int) (tag : String) :
    ScenarioFreezeSt :=
  let st0 : ScenarioFreezeSt := ⟨false, [], 0⟩
  if flow.entryCancelled then st0
  else if flow.stepsOk.all (fun b => b) then
    match flow.download with
    | .err => scenarioFreeze ioOk now tag (scenarioFreeze ioOk now tag st0)
    | .outcome .downloaded => scenarioFreeze ioOk now tag (scenarioFreeze ioOk now tag st0)
    | .outcome .exhausted => scenarioFreeze ioOk now tag (scenarioFreeze ioOk now tag st0)
    | .outcome .none => scenarioFreeze ioOk now tag st0
  else scenarioFreeze ioOk now tag (scenarioFreeze ioOk now tag st0)

/-- Reference formulation of the tag-collision rule in the spec's words:
the number of previous occurrences of each exact prefixed tag is kept in
a counting function; the first occurrence keeps the prefixed tag, the
`(c+1)`-th occurrence gets `-{c+1}` appended. -/
def normalizeByCounts (items : List Outbound) (pfx : String) (counts : String → Nat)
    (i : Nat) : List Outbound :=
  match items with
  | [] => []
  | ob :: rest =>
    let origTag := effOrigTag ob i
    if shouldExcludeTag origTag then normalizeByCounts rest pfx counts (i + 1)
    else
      let b := pfx ++ origTag
      let c := counts b
      let tag := if c = 0 then b else b ++ "-" ++ toString (c + 1)
      { ob with tag := tag } ::
        normalizeByCounts rest pfx (fun x => if x = b then c + 1 else counts x) (i + 1)

/-! ## Helper lemmas -/

theorem scenarioFreeze_penalized (ioOk : Bool) (now : Int) (tag : String)
    (st : ScenarioFreezeSt) (h : st.penalized = true) :
    scenarioFreeze ioOk now tag st = st := by
  simp [scenarioFreeze, h]

theorem repFreeze_penalized (ioOk : Bool) (now : Int) (tag : String) :
    ∀ (k : Nat) (st : ScenarioFreezeSt), st.penalized = true →
      repFreeze ioOk now tag k st = st
  | 0, _, _ => rfl
  | k + 1, st, h => by
    rw [repFreeze, scenarioFreeze_penalized ioOk now tag st h]
    exact repFreeze_penalized ioOk now tag k st h

theorem strTrim_empty : strTrim "" = "" := rfl

theorem scenarioFreeze_first (now : Int) (tag : String) (h : strTrim tag ≠ "") :
    scenarioFreeze true now tag ⟨false, [], 0⟩ =
      ⟨true, [(strTrim tag, now + freezeDuration)], 1⟩ := by
  have htag : tag ≠ "" := fun he => h (by rw [he]; exact strTrim_empty)
  simp [scenarioFreeze, FreezeEndpoint, htag, h, setEntry]

/-! ## Claim theorems -/

/-- **C3** (evidence for the code bug): in `pickProxyEndpoints` the sing-box
subprocess is started on the application-wide scope
(`context.Background()`), and yet the stop-monitor goroutine is armed on
the run request's scope — so cancelling a single run request's scope does
terminate the subprocess, contrary to the claim and to the comment in
the source. -/
theorem singbox_killed_on_run_cancel :
    pickProxyEndpointsLifecycle.execScope = CancelScope.app ∧
    terminatedOnCancel pickProxyEndpointsLifecycle CancelScope.run = true := by
  exact ⟨rfl, rfl⟩

/-- **C4**: within one scenario lifecycle, however many times the freeze
path is invoked (here `n + 1` times) for a tag that is non-empty after
trimming, exactly one ledger write happens, and it freezes the tag for
the fixed 15-minute window; freezing an empty tag is a no-op that
returns no error. -/
theorem scenarioFreeze_exactly_once (tag : String) (now : Int) (n : Nat)
    (h : strTrim tag ≠ "") :
    (repFreeze true now tag (n + 1) ⟨false, [], 0⟩).writes = 1 ∧
    lookupEntry (repFreeze true now tag (n + 1) ⟨false, [], 0⟩).ledger (strTrim tag)
      = some (now + freezeDuration) ∧
    (∀ (ioOk : Bool) (ledger : List (String × Int)),
      FreezeEndpoint ioOk now ledger "" = Except.ok (ledger, false)) := by
  have hrep : repFreeze true now tag (n + 1) ⟨false, [], 0⟩ =
      ⟨true, [(strTrim tag, now + freezeDuration)], 1⟩ := by
    rw [repFreeze, scenarioFreeze_first now tag h]
    exact repFreeze_penalized true now tag n _ rfl
  refine ⟨by rw [hrep], by rw [hrep]; simp [lookupEntry], fun _ _ => rfl⟩

/-- **C4** witness: three freeze invocations for tag `ep1` at time 1000. -/
theorem scenarioFreeze_exactly_once_witness :
    (repFreeze true 1000 "ep1" (2 + 1) ⟨false, [], 0⟩).writes = 1 ∧
    lookupEntry (repFreeze true 1000 "ep1" (2 + 1) ⟨false, [], 0⟩).ledger (strTrim "ep1")
      = some (1000 + freezeDuration) ∧
    (∀ (ioOk : Bool) (ledger : List (String × Int)),
      FreezeEndpoint ioOk 1000 ledger "" = Except.ok (ledger, false)) :=
  scenarioFreeze_exactly_once "ep1" 1000 2 (by decide)

/-- **C5**: an endpoint survives `filterPenalized` exactly when it is a
candidate whose tag has no unexpired freeze record (absent or past
expiry ⇒ active and kept, future expiry ⇒ penalized and dropped), and a
ledger read failure is treated as no penalties, returning every
candidate. -/
theorem filterPenalized_spec (rr : ReadResult) (now : Int) (endpoints : List Endpoint) :
    (∀ ep, ep ∈ filterPenalized rr now endpoints ↔
      ep ∈ endpoints ∧
        ∀ exp, lookupEntry (effectivePenalties rr) ep.tag = some exp → exp ≤ now) ∧
    filterPenalized ReadResult.ioError now endpoints = endpoints := by
  constructor
  · intro ep
    unfold filterPenalized
    rw [List.mem_filter]
    refine and_congr_right fun _ => ?_
    unfold notPenalized
    cases hl : lookupEntry (effectivePenalties rr) ep.tag with
    | none => simp [hl]
    | some exp =>
      by_cases hlt : now < exp
      · simp only [hl, if_pos hlt]
        constructor
        · intro hfalse; cases hfalse
        · intro hall
          exact absurd (hall exp rfl) (not_le.mpr hlt)
      · simp only [hl, if_neg hlt]
        constructor
        · intro _ exp' heq
          injection heq with heq'
          omega
        · intro _
          trivial
  · unfold filterPenalized
    have hpen : effectivePenalties ReadResult.ioError = [] := rfl
    rw [hpen]
    apply List.filter_eq_self.mpr
    intro ep _
    rfl

/-- **C5** witness: with ledger content `a,5` and `b,100` at time 50,
endpoint `a` (expiry in the past) is kept. -/
theorem filterPenalized_spec_witness :
    (⟨"a", "u"⟩ : Endpoint) ∈
      filterPenalized (ReadResult.ok "a,5\nb,100") 50 [⟨"a", "u"⟩, ⟨"b", "v"⟩] :=
  ((filterPenalized_spec (ReadResult.ok "a,5\nb,100") 50 [⟨"a", "u"⟩, ⟨"b", "v"⟩]).1
      ⟨"a", "u"⟩).mpr
    ⟨by decide, by
      intro exp hexp
      have hl : lookupEntry (effectivePenalties (ReadResult.ok "a,5\nb,100")) "a" = some 5 := by
        decide
      rw [hl] at hexp
      injection hexp with hexp'
      omega⟩

/-- **C6** counterexample: a submitted temperature of 0 does not disable
the temperature step — both HTTP handlers replace it with the default
1.0, so the step runs (its outcome still reaches the scenario). -/
theorem temperature_zero_counterexample :
    jsonEffectiveTemperature 0 = 1 ∧
    multipartEffectiveTemperature (some 0) = 1 ∧
    scenarioTemperatureStep (jsonEffectiveTemperature 0) (some "set temperature: not completed")
      = some "set temperature: not completed" := by
  refine ⟨?_, ?_, ?_⟩ <;>
    norm_num [jsonEffectiveTemperature, multipartEffectiveTemperature,
      multipartParsedTemperature, defaultTemperature, scenarioTemperatureStep]

/-- **C6** amended: a submitted temperature of 0 (or any non-positive
value) is treated as "not provided" and replaced by the default 1.0, so
the step is not disabled; the step is skipped, with no error, exactly
when the effective `RunOptions` temperature is non-positive; positive
submitted values are accepted as-is by the JSON handler (with no upper
bound), while the multipart handler accepts them only inside [0,2] and
otherwise falls back to the default. -/
theorem temperature_amended (s : ℚ) (err : Option String) :
    (s > 0 → jsonEffectiveTemperature s = s) ∧
    (s ≤ 0 → jsonEffectiveTemperature s = defaultTemperature) ∧
    (0 < s ∧ s ≤ 2 → multipartEffectiveTemperature (some s) = s) ∧
    (¬(0 ≤ s ∧ s ≤ 2) → multipartEffectiveTemperature (some s) = defaultTemperature) ∧
    (s ≤ 0 → scenarioTemperatureStep s err = Option.none) ∧
    (s > 0 → scenarioTemperatureStep s err = err) := by
  refine ⟨?_, ?_, ?_, ?_, ?_, ?_⟩
  · intro h
    unfold jsonEffectiveTemperature
    rw [if_pos h]
  · intro h
    unfold jsonEffectiveTemperature
    rw [if_neg (not_lt.mpr h)]
  · intro h
    have hp : multipartParsedTemperature (some s) = s := by
      simp [multipartParsedTemperature, le_of_lt h.1, h.2]
    simp only [multipartEffectiveTemperature, hp]
    rw [if_pos h.1]
  · intro h
    have hp : multipartParsedTemperature (some s) = 0 := by
      simp only [multipartParsedTemperature]
      rw [if_neg h]
    simp only [multipartEffectiveTemperature, hp]
    norm_num [defaultTemperature]
  · intro h
    unfold scenarioTemperatureStep
    rw [if_neg (not_lt.mpr h)]
  · intro h
    unfold scenarioTemperatureStep
    rw [if_pos h]

/-- **C6** witness: a submitted 0.5 is accepted by the JSON handler, and a
non-positive effective temperature skips the step with no error. -/
theorem temperature_amended_witness :
    jsonEffectiveTemperature (1 / 2) = 1 / 2 ∧
    scenarioTemperatureStep (-1) (some "boom") = Option.none :=
  ⟨(temperature_amended (1 / 2) Option.none).1 (by norm_num),
    (temperature_amended (-1) (some "boom")).2.2.2.2.1 (by norm_num)⟩

theorem drainFirstErr_skip_ok (pre : List WorkerOut) (w : WorkerOut)
    (post : List WorkerOut) (hpre : ∀ v ∈ pre, v.err = Option.none) (e : String)
    (hw : w.err = some e) :
    drainFirstErr (pre ++ w :: post) =
      some ("scenario " ++ toString w.res.id ++ ": " ++ e) := by
  induction pre with
  | nil =>
    simp [drainFirstErr, workerErrMsg, hw]
  | cons v rest ih =>
    have hv : v.err = Option.none := hpre v (List.mem_cons_self v rest)
    simp only [List.cons_append, drainFirstErr, workerErrMsg, hv, Option.map_none]
    exact ih fun u hu => hpre u (List.mem_cons_of_mem v hu)

theorem drainFirstErr_all_ok (outs : List WorkerOut)
    (h : ∀ w ∈ outs, w.err = Option.none) : drainFirstErr outs = Option.none := by
  induction outs with
  | nil => rfl
  | cons w rest ih =>
    simp only [drainFirstErr, workerErrMsg, h w (List.mem_cons_self w rest), Option.map_none]
    exact ih fun u hu => h u (List.mem_cons_of_mem w hu)

/-- **C1** counterexample: a batch whose single worker ends with outcome
`none` and a nil error gets back a nil batch error (success) from
`RunWithOptions` even though no worker reached `downloaded` — the claim
says such a batch fails. -/
theorem runAggregate_no_error_counterexample :
    (runAggregate [⟨⟨1, DownloadOutcome.none, "", "", "", "", "", ""⟩, Option.none⟩]).2
      = Option.none ∧
    ∀ r ∈ (runAggregate [⟨⟨1, DownloadOutcome.none, "", "", "", "", "", ""⟩, Option.none⟩]).1,
      r.outcome ≠ DownloadOutcome.downloaded := by
  decide

/-- **C1** amended: the batch always returns the full per-scenario results
list (one result per worker, in channel-drain order); when at least one
worker reached `downloaded` the batch error is nil; otherwise the batch
error is the first worker error in channel-drain order — which is nil,
i.e. the batch still succeeds, when no worker errored. -/
theorem runAggregate_amended (outs : List WorkerOut) :
    (runAggregate outs).1 = drainResults outs ∧
    (runAggregate outs).1.length = outs.length ∧
    ((∃ r ∈ drainResults outs, r.outcome = DownloadOutcome.downloaded) →
      runAggregate outs = (drainResults outs, Option.none)) ∧
    ((∀ r ∈ drainResults outs, r.outcome ≠ DownloadOutcome.downloaded) →
      (runAggregate outs).2 = drainFirstErr outs) ∧
    (∀ pre w post, outs = pre ++ w :: post → (∀ v ∈ pre, v.err = Option.none) →
      ∀ e, w.err = some e →
        drainFirstErr outs = some ("scenario " ++ toString w.res.id ++ ": " ++ e)) ∧
    ((∀ w ∈ outs, w.err = Option.none) → drainFirstErr outs = Option.none) := by
  have h1 : (runAggregate outs).1 = drainResults outs := by
    simp only [runAggregate]
    split <;> rfl
  refine ⟨h1, ?_, ?_, ?_, ?_, ?_⟩
  · rw [h1]
    simp [drainResults]
  · intro ⟨r, hr, hdl⟩
    have ha : anySuccess (drainResults outs) = true :=
      List.any_eq_true.mpr ⟨r, hr, by simp [hdl]⟩
    simp [runAggregate, ha]
  · intro hnone
    have ha : anySuccess (drainResults outs) = false := by
      apply List.any_eq_false.mpr
      intro r hr
      simp [hnone r hr]
    simp [runAggregate, ha]
  · intro pre w post houts hpre e hw
    rw [houts]
    exact drainFirstErr_skip_ok pre w post hpre e hw
  · exact drainFirstErr_all_ok outs

/-- **C1** witness: a two-worker batch where worker 1 errored and worker 2
downloaded returns success with both results; and the drained first
error is worker 1's wrapped error. -/
theorem runAggregate_amended_witness :
    runAggregate
        [⟨⟨1, DownloadOutcome.none, "", "", "", "", "", ""⟩, some "boom"⟩,
          ⟨⟨2, DownloadOutcome.downloaded, "p", "u", "t", "4K", "1:1", ""⟩, Option.none⟩] =
      (drainResults
        [⟨⟨1, DownloadOutcome.none, "", "", "", "", "", ""⟩, some "boom"⟩,
          ⟨⟨2, DownloadOutcome.downloaded, "p", "u", "t", "4K", "1:1", ""⟩, Option.none⟩],
        Option.none) ∧
    drainFirstErr
        [⟨⟨1, DownloadOutcome.none, "", "", "", "", "", ""⟩, some "boom"⟩,
          ⟨⟨2, DownloadOutcome.downloaded, "p", "u", "t", "4K", "1:1", ""⟩, Option.none⟩] =
      some ("scenario " ++ toString (1 : Nat) ++ ": " ++ "boom") := by
  constructor
  · exact (runAggregate_amended _).2.2.1 (by decide)
  · exact (runAggregate_amended _).2.2.2.2.1 []
      ⟨⟨1, DownloadOutcome.none, "", "", "", "", "", ""⟩, some "boom"⟩
      [⟨⟨2, DownloadOutcome.downloaded, "p", "u", "t", "4K", "1:1", ""⟩, Option.none⟩]
      rfl (by simp) "boom" rfl

/-- **C2**: with requested scenario count `sc` (floored to at least 1) and
`M` usable endpoints, `RunWithOptions` launches exactly
`min (floored sc) M` workers when `M > 0`, worker `i+1` bound
positionally to endpoint `i`; and exactly `floored sc` workers, all with
an empty proxy assignment, when `M = 0`. -/
theorem launchedWorkers_spec (sc : Int) (assigned : List Endpoint) :
    (0 < assigned.length →
      (launchedWorkers sc assigned).length = min (flooredScenarioCount sc) assigned.length ∧
      ∀ i, i < (launchedWorkers sc assigned).length →
        (launchedWorkers sc assigned).getD i ⟨0, "", ""⟩ =
          ⟨i + 1, (assigned.getD i ⟨"", ""⟩).url, (assigned.getD i ⟨"", ""⟩).tag⟩) ∧
    (assigned = [] →
      (launchedWorkers sc assigned).length = flooredScenarioCount sc ∧
      ∀ w ∈ launchedWorkers sc assigned, w.proxyURL = "" ∧ w.proxyTag = "") := by
  constructor
  · intro hpos
    have hlen : (launchedWorkers sc assigned).length =
        min (flooredScenarioCount sc) assigned.length := by
      simp only [launchedWorkers, List.length_map, List.length_range]
      by_cases hlt : assigned.length < flooredScenarioCount sc
      · rw [if_pos ⟨hpos, hlt⟩]
        omega
      · rw [if_neg (by omega)]
        omega
    refine ⟨hlen, ?_⟩
    intro i hi
    rw [List.getD_eq_getElem _ _ hi]
    simp only [launchedWorkers, List.getElem_map, List.getElem_range]
    rw [if_pos hpos]
  · intro hempty
    subst hempty
    constructor
    · simp [launchedWorkers, flooredScenarioCount]
    · intro w hw
      simp only [launchedWorkers, List.mem_map] at hw
      obtain ⟨i, _, hweq⟩ := hw
      simp only [List.length_nil] at hweq
      rw [if_neg (by omega)] at hweq
      rw [← hweq]
      exact ⟨rfl, rfl⟩

/-- **C2** witness: requesting 3 scenarios with 2 endpoints launches
exactly 2 workers, and worker 2 is bound to the second endpoint. -/
theorem launchedWorkers_spec_witness :
    (launchedWorkers 3 [⟨"t1", "u1"⟩, ⟨"t2", "u2"⟩]).length =
      min (flooredScenarioCount 3) 2 ∧
    (launchedWorkers 3 [⟨"t1", "u1"⟩, ⟨"t2", "u2"⟩]).getD 1 ⟨0, "", ""⟩ =
      ⟨2, "u2", "t2"⟩ := by
  obtain ⟨hlen, hel⟩ :=
    (launchedWorkers_spec 3 [⟨"t1", "u1"⟩, ⟨"t2", "u2"⟩]).1 (by decide)
  refine ⟨hlen, ?_⟩
  have h1 := hel 1 (by rw [hlen]; decide)
  rw [h1]
  rfl

/-- **C10** counterexample: a scenario whose context is already cancelled
at entry returns before the deferred freeze is even registered, so its
non-empty assigned endpoint tag (here `ep`) is left unfrozen — zero
ledger writes — contradicting "freezes on every exit path". -/
theorem runScenario_entry_cancel_counterexample :
    (runScenarioFreezes ⟨true, [], DlStep.outcome DownloadOutcome.none⟩ true 0 "ep").writes
      = 0 ∧
    ("ep" : String) ≠ "" ∧
    (runScenarioFreezes ⟨true, [], DlStep.outcome DownloadOutcome.none⟩ true 0 "ep").penalized
      = false := by
  decide

/-- **C10** amended: on every exit path reached after the initial
`ctx.Err()` check (any failing step, a download error, or any of the
three download outcomes — including `none`), a scenario with a non-empty
assigned tag freezes that endpoint exactly once, because the deferred
freeze runs unconditionally from that point on; only the entry
cancellation path returns with the endpoint unfrozen. -/
theorem runScenarioFreezes_amended (flow : ScenarioFlow) (ioOk : Bool) (now : Int)
    (tag : String) (hentry : flow.entryCancelled = false) (htag : strTrim tag ≠ "")
    (hOk : ioOk = true) :
    (runScenarioFreezes flow ioOk now tag).writes = 1 ∧
    lookupEntry (runScenarioFreezes flow ioOk now tag).ledger (strTrim tag)
      = some (now + freezeDuration) := by
  subst hOk
  have h1 := scenarioFreeze_first now tag htag
  have h2 : scenarioFreeze true now tag
      (⟨true, [(strTrim tag, now + freezeDuration)], 1⟩ : ScenarioFreezeSt) =
      ⟨true, [(strTrim tag, now + freezeDuration)], 1⟩ :=
    scenarioFreeze_penalized true now tag _ rfl
  have hmain : runScenarioFreezes flow true now tag =
      ⟨true, [(strTrim tag, now + freezeDuration)], 1⟩ := by
    simp only [runScenarioFreezes, hentry, Bool.false_eq_true, if_false]
    split
    · split <;> simp only [h1, h2]
    · simp only [h1, h2]
  rw [hmain]
  exact ⟨rfl, by simp [lookupEntry]⟩

/-- **C10** witness: a clean two-step flow ending in the `none` outcome
still freezes the assigned endpoint exactly once via the deferred
freeze. -/
theorem runScenarioFreezes_amended_witness :
    (runScenarioFreezes ⟨false, [true, true], DlStep.outcome DownloadOutcome.none⟩
        true 50 "epX").writes = 1 ∧
    lookupEntry
        (runScenarioFreezes ⟨false, [true, true], DlStep.outcome DownloadOutcome.none⟩
          true 50 "epX").ledger (strTrim "epX") = some (50 + freezeDuration) :=
  runScenarioFreezes_amended ⟨false, [true, true], DlStep.outcome DownloadOutcome.none⟩
    true 50 "epX" rfl (by decide) rfl

theorem lookupEntry_setEntry_self {α : Type} (l : List (String × α)) (k : String) (v : α) :
    lookupEntry (setEntry l k v) k = some v := by
  induction l with
  | nil => simp [setEntry, lookupEntry]
  | cons p t ih =>
    by_cases hk : p.1 = k
    · simp [setEntry, hk, lookupEntry]
    · simp [setEntry, hk, lookupEntry, ih]

theorem lookupEntry_setEntry_ne {α : Type} (l : List (String × α)) (k k' : String) (v : α)
    (h : k' ≠ k) : lookupEntry (setEntry l k v) k' = lookupEntry l k' := by
  induction l with
  | nil => simp [setEntry, lookupEntry, Ne.symm h]
  | cons p t ih =>
    by_cases hk : p.1 = k
    · simp [setEntry, hk, lookupEntry, Ne.symm h]
    · simp only [setEntry, if_neg hk, lookupEntry]
      by_cases hk' : p.1 = k'
      · simp [hk']
      · simp [hk', ih]

theorem normalizeOutbounds_eq_byCounts (items : List Outbound) (pfx : String) :
    ∀ (seen : List (String × Nat)) (counts : String → Nat) (i : Nat),
      (∀ b, lookupEntry seen b = if counts b = 0 then Option.none else some (counts b)) →
      (normalizeOutbounds items pfx seen i).1 = normalizeByCounts items pfx counts i := by
  induction items with
  | nil => intros; rfl
  | cons ob rest ih =>
    intro seen counts i hinv
    cases hex : shouldExcludeTag (effOrigTag ob i) with
    | true =>
      simp only [normalizeOutbounds, normalizeByCounts, hex, if_true]
      exact ih seen counts (i + 1) hinv
    | false =>
      cases hc : counts (pfx ++ effOrigTag ob i) with
      | zero =>
        have hl : lookupEntry seen (pfx ++ effOrigTag ob i) = Option.none := by
          rw [hinv (pfx ++ effOrigTag ob i), hc]
          simp
        have hinv2 : ∀ b, lookupEntry (setEntry seen (pfx ++ effOrigTag ob i) 1) b =
            if (if b = pfx ++ effOrigTag ob i then 1 else counts b) = 0 then Option.none
            else some (if b = pfx ++ effOrigTag ob i then 1 else counts b) := by
          intro b
          by_cases hbb : b = pfx ++ effOrigTag ob i
          · subst hbb
            rw [lookupEntry_setEntry_self]
            simp
          · rw [lookupEntry_setEntry_ne _ _ _ _ hbb, hinv b]
            simp [hbb]
        have htail := ih (setEntry seen (pfx ++ effOrigTag ob i) 1)
            (fun x => if x = pfx ++ effOrigTag ob i then 1 else counts x) (i + 1) hinv2
        simp [normalizeOutbounds, normalizeByCounts, hex, hl, hc, htail]
      | succ n =>
        have hl : lookupEntry seen (pfx ++ effOrigTag ob i) = some (n + 1) := by
          rw [hinv (pfx ++ effOrigTag ob i), hc]
          simp
        have hinv2 : ∀ b, lookupEntry (setEntry seen (pfx ++ effOrigTag ob i) (n + 2)) b =
            if (if b = pfx ++ effOrigTag ob i then n + 2 else counts b) = 0 then Option.none
            else some (if b = pfx ++ effOrigTag ob i then n + 2 else counts b) := by
          intro b
          by_cases hbb : b = pfx ++ effOrigTag ob i
          · subst hbb
            rw [lookupEntry_setEntry_self]
            simp
          · rw [lookupEntry_setEntry_ne _ _ _ _ hbb, hinv b]
            simp [hbb]
        have htail := ih (setEntry seen (pfx ++ effOrigTag ob i) (n + 2))
            (fun x => if x = pfx ++ effOrigTag ob i then n + 2 else counts x) (i + 1) hinv2
        simp only [normalizeOutbounds, normalizeByCounts, hex, Bool.false_eq_true, if_false,
          hl, hc]
        rw [if_neg (Nat.succ_ne_zero n)]
        exact congrArg (List.cons _) htail

/-- **C9** counterexample: with original tags `a`, `a`, `a-2` under prefix
`sub1-`, the collision counter renames the second `a` to `sub1-a-2`,
which collides with the third entry's own prefixed tag `sub1-a-2`
(generated tags are never recorded in the collision map) — the resulting
tags are not pairwise distinct. -/
theorem normalizeOutbounds_distinct_counterexample :
    ((normalizeOutbounds [⟨"a", "ss"⟩, ⟨"a", "ss"⟩, ⟨"a-2", "ss"⟩] "sub1-" [] 0).1.map
        Outbound.tag) = ["sub1-a", "sub1-a-2", "sub1-a-2"] ∧
    ¬ ((normalizeOutbounds [⟨"a", "ss"⟩, ⟨"a", "ss"⟩, ⟨"a-2", "ss"⟩] "sub1-" [] 0).1.map
        Outbound.tag).Nodup := by
  decide

/-- **C9** amended: each entry's tag is namespaced with the per-source
prefix; the first occurrence of a prefixed tag keeps it unchanged and
subsequent collisions on that exact tag get `-{n}` appended with `n` the
running duplicate count — formally, starting from the empty collision
map, `normalizeOutbounds` computes exactly the occurrence-counting
reference `normalizeByCounts` — but the resulting tags are **not**
guaranteed pairwise distinct, since generated suffixed tags are not
entered into the collision map. -/
theorem normalizeOutbounds_amended (items : List Outbound) (pfx : String) (i : Nat) :
    (normalizeOutbounds items pfx [] i).1 = normalizeByCounts items pfx (fun _ => 0) i :=
  normalizeOutbounds_eq_byCounts items pfx [] (fun _ => 0) i (fun _ => rfl)

theorem normalizeOutbounds_mem (pfx : String) :
    ∀ (items : List Outbound) (seen : List (String × Nat)) (i : Nat) (e : Outbound),
      e ∈ (normalizeOutbounds items pfx seen i).1 →
      (∃ src ∈ items, e.type = src.type) ∧
      ∃ orig, shouldExcludeTag orig = false ∧
        (e.tag = pfx ++ orig ∨ ∃ n : Nat, e.tag = pfx ++ orig ++ "-" ++ toString n) := by
  intro items
  induction items with
  | nil =>
    intro seen i e he
    simp [normalizeOutbounds] at he
  | cons ob rest ih =>
    intro seen i e he
    cases hex : shouldExcludeTag (effOrigTag ob i) with
    | true =>
      rw [normalizeOutbounds] at he
      simp only [hex, if_true] at he
      obtain ⟨⟨src, hs, ht⟩, horig⟩ := ih seen (i + 1) e he
      exact ⟨⟨src, List.mem_cons_of_mem ob hs, ht⟩, horig⟩
    | false =>
      rw [normalizeOutbounds] at he
      simp only [hex, Bool.false_eq_true, if_false] at he
      cases hl : lookupEntry seen (pfx ++ effOrigTag ob i) with
      | none =>
        rw [hl] at he
        simp only [List.mem_cons] at he
        rcases he with he | he
        · subst he
          refine ⟨⟨ob, List.mem_cons_self ob rest, rfl⟩, effOrigTag ob i, hex, Or.inl rfl⟩
        · obtain ⟨⟨src, hs, ht⟩, horig⟩ := ih _ (i + 1) e he
          exact ⟨⟨src, List.mem_cons_of_mem ob hs, ht⟩, horig⟩
      | some n =>
        rw [hl] at he
        simp only [List.mem_cons] at he
        rcases he with he | he
        · subst he
          exact ⟨⟨ob, List.mem_cons_self ob rest, rfl⟩, effOrigTag ob i, hex,
            Or.inr ⟨n + 1, rfl⟩⟩
        · obtain ⟨⟨src, hs, ht⟩, horig⟩ := ih _ (i + 1) e he
          exact ⟨⟨src, List.mem_cons_of_mem ob hs, ht⟩, horig⟩

/-- **C8**: every entry of the merged subscription outbound list has a
routable (non-meta, non-empty) type, and descends from an original
display name that does not contain any blacklist keyword — its final tag
is that name under the `sub{N}-` prefix, possibly with a collision
suffix. -/
theorem mergedOutbounds_invariant :
    ∀ (docs : List (Except String (List Outbound))) (idx : Nat)
      (seen : List (String × Nat)) (merged : List Outbound),
      mergeSubscriptions docs idx seen = Except.ok merged →
      ∀ ob ∈ merged, isRealOutboundType ob.type = true ∧
        ∃ (m : Nat) (orig : String), shouldExcludeTag orig = false ∧
          (ob.tag = "sub" ++ toString m ++ "-" ++ orig ∨
            ∃ n : Nat, ob.tag = "sub" ++ toString m ++ "-" ++ orig ++ "-" ++ toString n) := by
  intro docs
  induction docs with
  | nil =>
    intro idx seen merged hm ob hob
    rw [mergeSubscriptions] at hm
    injection hm with hm
    subst hm
    cases hob
  | cons d rest ih =>
    intro idx seen merged hm ob hob
    rw [mergeSubscriptions] at hm
    cases hd : fetchSubscription d with
    | error e =>
      rw [hd] at hm
      cases hm
    | ok items =>
      rw [hd] at hm
      dsimp only at hm
      cases hrest : mergeSubscriptions rest (idx + 1)
          (normalizeOutbounds items ("sub" ++ toString (idx + 1) ++ "-") seen 0).2 with
      | error e =>
        rw [hrest] at hm
        cases hm
      | ok more =>
        rw [hrest] at hm
        injection hm with hm
        subst hm
        rcases List.mem_append.mp hob with hob | hob
        · obtain ⟨⟨src, hs, ht⟩, orig, horig, htag⟩ :=
            normalizeOutbounds_mem ("sub" ++ toString (idx + 1) ++ "-") items seen 0 ob hob
          have hreal : isRealOutboundType src.type = true := by
            cases d with
            | error e => simp [fetchSubscription] at hd
            | ok raw =>
              simp only [fetchSubscription, Except.ok.injEq] at hd
              subst hd
              exact (List.mem_filter.mp hs).2
          exact ⟨by rw [ht]; exact hreal, idx + 1, orig, horig, htag⟩
        · exact ih (idx + 1) _ more hrest ob hob

/-- **C8** witness: one subscription with a routable node `n1` merges to
`sub1-n1`, which satisfies the invariant. -/
theorem mergedOutbounds_invariant_witness :
    isRealOutboundType (Outbound.mk "sub1-n1" "ss").type = true ∧
    ∃ (m : Nat) (orig : String), shouldExcludeTag orig = false ∧
      ((Outbound.mk "sub1-n1" "ss").tag = "sub" ++ toString m ++ "-" ++ orig ∨
        ∃ n : Nat,
          (Outbound.mk "sub1-n1" "ss").tag =
            "sub" ++ toString m ++ "-" ++ orig ++ "-" ++ toString n) :=
  mergedOutbounds_invariant [Except.ok [⟨"n1", "ss"⟩]] 0 [] [⟨"sub1-n1", "ss"⟩]
    (by rfl) ⟨"sub1-n1", "ss"⟩ (by decide)

/-- **C7**: a valid cache with at least one real outbound is returned
as-is with nothing fetched or persisted; otherwise the fetch path runs:
fetches happen in listed order and any single fetch error fails the
whole load with no partial result and nothing persisted; with all
fetches succeeding, an empty merged list fails the load, and a non-empty
merged list is returned and persisted (and nothing counts as persisted
when the cache write fails). -/
theorem loadOrFetchOutbounds_spec :
    (∀ docs writeOk out, hasRealOutbounds out = true →
      loadOrFetchOutbounds (some out) docs writeOk = (Except.ok out, Option.none)) ∧
    (∀ docs writeOk, loadOrFetchOutbounds Option.none docs writeOk
      = loadFetchPath docs writeOk) ∧
    (∀ docs writeOk out, hasRealOutbounds out = false →
      loadOrFetchOutbounds (some out) docs writeOk = loadFetchPath docs writeOk) ∧
    (∀ (pre post : List (Except String (List Outbound))) (e : String) (idx : Nat)
        (seen : List (String × Nat)), (∀ x ∈ pre, ∃ l, x = Except.ok l) →
      ∃ msg, mergeSubscriptions (pre ++ Except.error e :: post) idx seen
        = Except.error msg) ∧
    (∀ docs writeOk msg, mergeSubscriptions docs 0 [] = Except.error msg →
      loadFetchPath docs writeOk = (Except.error msg, Option.none)) ∧
    (∀ docs writeOk merged, mergeSubscriptions docs 0 [] = Except.ok merged →
      merged ≠ [] → writeOk = true →
      loadFetchPath docs writeOk = (Except.ok merged, some merged)) ∧
    (∀ docs writeOk, mergeSubscriptions docs 0 [] = Except.ok [] →
      ∃ msg, loadFetchPath docs writeOk = (Except.error msg, Option.none)) ∧
    (∀ docs, (loadFetchPath docs false).2 = Option.none) := by
  refine ⟨?_, ?_, ?_, ?_, ?_, ?_, ?_, ?_⟩
  · intro docs writeOk out h
    simp [loadOrFetchOutbounds, h]
  · intro docs writeOk
    rfl
  · intro docs writeOk out h
    simp [loadOrFetchOutbounds, h]
  · intro pre post e idx seen hpre
    induction pre generalizing idx seen with
    | nil => exact ⟨"fetch: " ++ e, rfl⟩
    | cons x rest ihp =>
      obtain ⟨l, hx⟩ := hpre x (List.mem_cons_self x rest)
      subst hx
      obtain ⟨msg, hmsg⟩ := ihp (idx + 1)
        (normalizeOutbounds (l.filter (fun ob => isRealOutboundType ob.type))
          ("sub" ++ toString (idx + 1) ++ "-") seen 0).2
        (fun u hu => hpre u (List.mem_cons_of_mem _ hu))
      refine ⟨msg, ?_⟩
      rw [List.cons_append, mergeSubscriptions]
      dsimp only [fetchSubscription]
      rw [hmsg]
  · intro docs writeOk msg h
    simp [loadFetchPath, h]
  · intro docs writeOk merged h hne hw
    subst hw
    simp [loadFetchPath, h, hne]
  · intro docs writeOk h
    exact ⟨"订阅未返回任何 outbounds", by simp [loadFetchPath, h]⟩
  · intro docs
    cases h : mergeSubscriptions docs 0 [] with
    | error e => simp [loadFetchPath, h]
    | ok merged =>
      by_cases hm : merged = []
      · simp [loadFetchPath, h, hm]
      · simp [loadFetchPath, h, hm]

/-- **C7** witness: a cache holding the single real outbound `a` is
returned unchanged, with nothing persisted. -/
theorem loadOrFetchOutbounds_spec_witness :
    loadOrFetchOutbounds (some [⟨"a", "ss"⟩]) [] true
      = (Except.ok [⟨"a", "ss"⟩], Option.none) :=
  loadOrFetchOutbounds_spec.1 [] true [⟨"a", "ss"⟩] (by decide)
